import Mathlib

/-!
Verification development for the quorum-arithmetic and per-round bookkeeping
core of a PBFT consensus engine (package `pbft`).

The voting model (`NodesCountConsensusMetadata`, `VotingPowerConsensusMetadata`)
is embedded from `consensus_metadata.go`.  The message store (`state`) is not
part of the given sources — only its test file is — so its operations are
modelled from the specification, each marked `Modelled from the spec:` in its
doc comment.

Go maps are modelled as association lists (`List (κ × α)`) whose keys stay
unique as long as entries are only added through `upsert`; `uint`/`uint64`
values are modelled as `Nat`, with a reduction modulo `2 ^ 64` wherever the Go
code performs a `uint64` addition that could wrap.
-/

/-- Identifier of a validator node (Go `NodeID`, a string type). -/
abbrev NodeID : Type := String

/-- Message kinds of `MessageReq` (Go `MsgType`). -/
inductive MsgType where
  | Preprepare
  | Prepare
  | Commit
  | RoundChange
deriving DecidableEq, Repr

/-- Consensus view: sequence (block height) and round (Go `View`). -/
structure View where
  sequence : Nat
  round : Nat
deriving DecidableEq, Repr

/-- A consensus message (Go `MessageReq`).  `sender` models the Go field
`From` (a reserved word here); `proposal` and `Seal` are byte slices,
modelled as lists of bytes. -/
structure MessageReq where
  sender : NodeID
  msgType : MsgType
  view : View
  proposal : List Nat
  Seal : List Nat
deriving DecidableEq

/-- First-match lookup in an association list, the model of Go map indexing
`m[k]` returning `(value, ok)`. -/
def lookup {κ α : Type} [DecidableEq κ] (m : List (κ × α)) (k : κ) : Option α :=
  match m with
  | [] => none
  | (k', v) :: rest => if k' = k then some v else lookup rest k

/-- Lookup with the Go zero-value default: `m[k]` in value position yields the
zero value when the key is absent. -/
def lookupD {κ : Type} [DecidableEq κ] (m : List (κ × Nat)) (k : κ) : Nat :=
  (lookup m k).getD 0

/-- The model of Go map assignment `m[k] = v`: replace the first entry with
key `k` in place, or append a new entry when the key is absent
(last-write-wins upsert). -/
def upsert {κ α : Type} [DecidableEq κ] (m : List (κ × α)) (k : κ) (v : α) : List (κ × α) :=
  match m with
  | [] => [(k, v)]
  | (k', v') :: rest => if k' = k then (k, v) :: rest else (k', v') :: upsert rest k v

/-- Keys of an association list. -/
def keysOf {κ α : Type} (m : List (κ × α)) : List κ :=
  m.map Prod.fst

/-- The `uint64` modulus: Go `uint64` arithmetic wraps modulo this value. -/
def U64 : Nat := 2 ^ 64

/-- Node-count voting model (Go `NodesCountConsensusMetadata`): every
validator has the same weight. -/
structure NodesCountConsensusMetadata where
  nodesCount : Nat

/-- Embedded from `consensus_metadata.go`: `MaxFaultyNodes` of the node-count
model, `(N - 1) / 3` guarded by the explicit zero check. -/
def NodesCountConsensusMetadata.MaxFaultyNodes (n : NodesCountConsensusMetadata) : Nat :=
  if n.nodesCount = 0 then 0 else (n.nodesCount - 1) / 3

/-- Embedded from `consensus_metadata.go`: `QuorumSize = 2 * F + 1` for the
node-count model. -/
def NodesCountConsensusMetadata.QuorumSize (n : NodesCountConsensusMetadata) : Nat :=
  2 * n.MaxFaultyNodes + 1

/-- Voting-power voting model (Go `VotingPowerConsensusMetadata`): each
validator carries a `uint64` weight. -/
structure VotingPowerConsensusMetadata where
  votingPowerMap : List (NodeID × Nat)

/-- Embedded from `consensus_metadata.go`: `calculateTotalVotingPower` sums
the voting powers of all validators; the Go accumulator is a `uint64`, so the
running sum wraps modulo `2 ^ 64`. -/
def VotingPowerConsensusMetadata.calculateTotalVotingPower
    (v : VotingPowerConsensusMetadata) : Nat :=
  v.votingPowerMap.foldl (fun acc p => (acc + p.2) % U64) 0

/-- Embedded from `consensus_metadata.go`: `MaxFaultyNodes` of the
voting-power model, `(T - 1) / 3` guarded by the explicit zero check on the
total voting power `T`. -/
def VotingPowerConsensusMetadata.MaxFaultyNodes (v : VotingPowerConsensusMetadata) : Nat :=
  if v.calculateTotalVotingPower = 0 then 0 else (v.calculateTotalVotingPower - 1) / 3

/-- Embedded from `consensus_metadata.go`: `QuorumSize = 2 * F + 1` for the
voting-power model. -/
def VotingPowerConsensusMetadata.QuorumSize (v : VotingPowerConsensusMetadata) : Nat :=
  2 * v.MaxFaultyNodes + 1

/-- Embedded from `consensus_metadata.go`: `calculateMessagesVotingPower`
sums `votingPowerMap[nodeId]` over the senders registered in the messages
map; a sender absent from the voting-power map contributes the Go zero value.
The Go accumulator is a `uint64`, so the running sum wraps modulo `2 ^ 64`. -/
def VotingPowerConsensusMetadata.calculateMessagesVotingPower
    (v : VotingPowerConsensusMetadata) (messages : List (NodeID × MessageReq)) : Nat :=
  messages.foldl (fun acc p => (acc + lookupD v.votingPowerMap p.1) % U64) 0

/-- Equal-weight voting-power map: weight `1` for every listed validator
(Go `CreateEqualWeightValidatorsMap`). -/
def CreateEqualWeightValidatorsMap (ids : List NodeID) : List (NodeID × Nat) :=
  ids.map (fun id => (id, 1))

/-- A checked model of Go unsigned subtraction `a - b`: `none` exactly when
the subtraction would underflow (wrap around) on unsigned integers. -/
def checkedSub (a b : Nat) : Option Nat :=
  if b ≤ a then some (a - b) else none

/-- Node-count `MaxFaultyNodes` with the unsigned subtraction made explicit:
`none` would signal an underflowing `nodesCount - 1`. -/
def NodesCountConsensusMetadata.MaxFaultyNodesChecked
    (n : NodesCountConsensusMetadata) : Option Nat :=
  if n.nodesCount = 0 then some 0
  else (checkedSub n.nodesCount 1).map (fun m => m / 3)

/-- Voting-power `MaxFaultyNodes` with the unsigned subtraction made
explicit: `none` would signal an underflowing `totalVotingPower - 1`. -/
def VotingPowerConsensusMetadata.MaxFaultyNodesChecked
    (v : VotingPowerConsensusMetadata) : Option Nat :=
  if v.calculateTotalVotingPower = 0 then some 0
  else (checkedSub v.calculateTotalVotingPower 1).map (fun m => m / 3)

/-- The proposal value held by the message store (Go `Proposal`: data bytes
and a timestamp). -/
structure Proposal where
  data : List Nat
  time : Nat
deriving DecidableEq

/-- A committed seal (Go `CommittedSeal`): a committing validator and a copy
of its signature bytes. -/
structure CommittedSeal where
  nodeId : NodeID
  signature : List Nat
deriving DecidableEq

/-- Modelled from the spec: the per-consensus-instance message store
(Go `state`, whose implementation file is not among the given sources; only
`state_test.go` exercises it).  `prepared` and `committed` map a sender to
its last Prepare/Commit message; `roundMessages` maps a round to the map of
RoundChange messages of that round; `validators` is the borrowed validator
set (modelled by its member list, membership being the only capability the
store consults); `proposal` and `locked` form the lockable proposal slot. -/
structure MessageStore where
  validators : List NodeID
  prepared : List (NodeID × MessageReq)
  committed : List (NodeID × MessageReq)
  roundMessages : List (Nat × List (NodeID × MessageReq))
  proposal : Option Proposal
  locked : Bool
  view : View

/-- Upsert into the inner per-round map of `roundMessages`, creating the
round's map when the round is absent (the model of Go
`s.roundMessages[round][from] = msg` with on-demand inner map creation). -/
def upsertRound (rms : List (Nat × List (NodeID × MessageReq))) (r : Nat)
    (k : NodeID) (v : MessageReq) : List (Nat × List (NodeID × MessageReq)) :=
  match rms with
  | [] => [(r, [(k, v)])]
  | (r', m) :: rest =>
      if r' = r then (r, upsert m k v) :: rest else (r', m) :: upsertRound rest r k v

/-- The messages recorded for round `r`: Go `s.roundMessages[r]`, the empty
map when the round is absent. -/
def lookupRound (rms : List (Nat × List (NodeID × MessageReq))) (r : Nat) :
    List (NodeID × MessageReq) :=
  (lookup rms r).getD []

/-- Modelled from the spec: `addMessage` drops a message from a non-member of
the validator set silently; otherwise it dispatches on the message type,
upserting Prepare into `prepared[from]`, Commit into `committed[from]`,
RoundChange into `roundMessages[round][from]`, and ignoring Preprepare. -/
def MessageStore.addMessage (s : MessageStore) (msg : MessageReq) : MessageStore :=
  if msg.sender ∈ s.validators then
    match msg.msgType with
    | MsgType.Prepare => { s with prepared := upsert s.prepared msg.sender msg }
    | MsgType.Commit => { s with committed := upsert s.committed msg.sender msg }
    | MsgType.RoundChange =>
        { s with roundMessages := upsertRound s.roundMessages msg.view.round msg.sender msg }
    | MsgType.Preprepare => s
  else s

/-- Modelled from the spec: `AddRoundMessage` returns `0` with no insertion
when the message is not a RoundChange; otherwise it behaves like the
RoundChange branch of `addMessage` and returns the size of
`roundMessages[msg.view.round]` after the insertion. -/
def MessageStore.AddRoundMessage (s : MessageStore) (msg : MessageReq) : Nat × MessageStore :=
  if msg.msgType = MsgType.RoundChange then
    let s2 := s.addMessage msg
    ((lookupRound s2.roundMessages msg.view.round).length, s2)
  else (0, s)

/-- Modelled from the spec: `addPrepared` is the type-guarded wrapper that
forwards Prepare messages to `addMessage` and ignores everything else. -/
def MessageStore.addPrepared (s : MessageStore) (msg : MessageReq) : MessageStore :=
  if msg.msgType = MsgType.Prepare then s.addMessage msg else s

/-- Modelled from the spec: `addCommitted` is the type-guarded wrapper that
forwards Commit messages to `addMessage` and ignores everything else. -/
def MessageStore.addCommitted (s : MessageStore) (msg : MessageReq) : MessageStore :=
  if msg.msgType = MsgType.Commit then s.addMessage msg else s

/-- Modelled from the spec: `numPrepared` is the cardinality of `prepared`. -/
def MessageStore.numPrepared (s : MessageStore) : Nat :=
  s.prepared.length

/-- Modelled from the spec: `numCommitted` is the cardinality of `committed`. -/
def MessageStore.numCommitted (s : MessageStore) : Nat :=
  s.committed.length

/-- Folding step of the round-change search: a round whose messages satisfy
the threshold predicate `p` becomes the candidate when it is the first
qualifying round seen or exceeds the current candidate. -/
def mrStep {α : Type} (p : Nat × α → Bool) (acc : Nat × Bool) (rm : Nat × α) : Nat × Bool :=
  if p rm then
    if acc.2 then (Nat.max acc.1 rm.1, true) else (rm.1, true)
  else acc

/-- Modelled from the spec: `maxRound` searches `roundMessages` for the
highest round whose aggregated voting power (per
`calculateMessagesVotingPower`) reaches the weak-certificate threshold
`MaxFaultyNodes + 1`, returning `(0, false)` when no round qualifies. -/
def MessageStore.maxRound (s : MessageStore) (v : VotingPowerConsensusMetadata) : Nat × Bool :=
  s.roundMessages.foldl
    (mrStep (fun rm => decide (v.MaxFaultyNodes + 1 ≤ v.calculateMessagesVotingPower rm.2)))
    (0, false)

/-- Modelled from the spec: `lock` sets the locked flag (the caller must have
set a proposal first). -/
def MessageStore.lock (s : MessageStore) : MessageStore :=
  { s with locked := true }

/-- Modelled from the spec: `unlock` clears the locked flag and empties the
proposal slot. -/
def MessageStore.unlock (s : MessageStore) : MessageStore :=
  { s with locked := false, proposal := none }

/-- Modelled from the spec: `IsLocked` reads the locked flag. -/
def MessageStore.IsLocked (s : MessageStore) : Bool :=
  s.locked

/-- A structural byte-by-byte copy of a byte slice: the model of copying
signature bytes into a fresh allocation rather than aliasing the stored
slice. -/
def copyBytes (b : List Nat) : List Nat :=
  b.foldr (fun x acc => x :: acc) []

/-- Modelled from the spec: `getCommittedSeals` emits one `CommittedSeal` per
entry of `committed`, each carrying an independent copy of the stored
message's seal bytes. -/
def MessageStore.getCommittedSeals (s : MessageStore) : List CommittedSeal :=
  s.committed.map (fun p => { nodeId := p.1, signature := copyBytes p.2.Seal })

/-- Well-formedness of a message store: each Go map holds at most one entry
per key — senders are unique in `prepared` and `committed`, rounds are
unique in `roundMessages`, and senders are unique inside every per-round
map. -/
def MessageStore.WF (s : MessageStore) : Prop :=
  (keysOf s.prepared).Nodup ∧ (keysOf s.committed).Nodup ∧
  (keysOf s.roundMessages).Nodup ∧
  ∀ rm ∈ s.roundMessages, (keysOf rm.2).Nodup

/-- Iterated message ingestion: deliver a list of messages in order. -/
def MessageStore.addMessages (s : MessageStore) (msgs : List MessageReq) : MessageStore :=
  msgs.foldl MessageStore.addMessage s

/-- The lock/emptiness coupling invariant: a locked store has a proposal. -/
def MessageStore.LockInv (s : MessageStore) : Prop :=
  s.locked = true → s.proposal ≠ none

/-- The weak-certificate threshold test of `maxRound`, as a predicate on a
round: the aggregated voting power of the senders recorded for round `r`
reaches `MaxFaultyNodes + 1`. -/
def MessageStore.roundQualifies (s : MessageStore) (v : VotingPowerConsensusMetadata)
    (r : Nat) : Prop :=
  v.MaxFaultyNodes + 1 ≤ v.calculateMessagesVotingPower (lookupRound s.roundMessages r)

/-- Test fixture: build a `MessageReq` the way `state_test.go`'s
`createMessage` helper does (fixed proposal and seal bytes). -/
def mkMsg (sender : NodeID) (t : MsgType) (r : Nat) : MessageReq :=
  { sender := sender, msgType := t, view := { sequence := 0, round := r },
    proposal := [7], Seal := [1, 2] }

/-- Test fixture: a freshly constructed store (Go `newState()`) with the
given validator set. -/
def mkStore (vals : List NodeID) : MessageStore :=
  { validators := vals, prepared := [], committed := [], roundMessages := [],
    proposal := none, locked := false, view := { sequence := 0, round := 0 } }

/-! Helper lemmas about association-list maps. -/

theorem keysOf_nil {κ α : Type} : keysOf ([] : List (κ × α)) = [] := rfl

theorem keysOf_cons {κ α : Type} (p : κ × α) (m : List (κ × α)) :
    keysOf (p :: m) = p.1 :: keysOf m := rfl

theorem mem_keysOf_of_mem {κ α : Type} {m : List (κ × α)} {k : κ} {v : α}
    (h : (k, v) ∈ m) : k ∈ keysOf m :=
  List.mem_map.mpr ⟨(k, v), h, rfl⟩

theorem mem_keysOf_iff {κ α : Type} [DecidableEq κ] (m : List (κ × α)) (k : κ) :
    k ∈ keysOf m ↔ (lookup m k).isSome := by
  induction m with
  | nil => simp [keysOf_nil, lookup]
  | cons p rest ih =>
      obtain ⟨k', v⟩ := p
      by_cases h : k' = k
      · subst h; simp [keysOf_cons, lookup]
      · simp [keysOf_cons, lookup, h, Ne.symm h, ih]

theorem lookup_mem {κ α : Type} [DecidableEq κ] (m : List (κ × α)) (k : κ) (v : α)
    (h : lookup m k = some v) : (k, v) ∈ m := by
  induction m with
  | nil => simp [lookup] at h
  | cons p rest ih =>
      obtain ⟨k', v'⟩ := p
      by_cases hk : k' = k
      · subst hk
        simp [lookup] at h
        subst h; exact List.mem_cons_self _ _
      · simp [lookup, hk] at h
        exact List.mem_cons_of_mem _ (ih h)

theorem mem_lookup_of_nodup {κ α : Type} [DecidableEq κ] (m : List (κ × α)) (k : κ) (v : α)
    (hnd : (keysOf m).Nodup) (h : (k, v) ∈ m) : lookup m k = some v := by
  induction m with
  | nil => simp at h
  | cons p rest ih =>
      obtain ⟨k', v'⟩ := p
      rw [keysOf_cons, List.nodup_cons] at hnd
      rcases List.mem_cons.mp h with h1 | h1
      · rw [Prod.mk.injEq] at h1
        obtain ⟨h2, h3⟩ := h1
        subst h2; subst h3
        simp [lookup]
      · have hk : k' ≠ k := fun he => hnd.1 (he ▸ mem_keysOf_of_mem h1)
        simp only [lookup, if_neg hk]
        exact ih hnd.2 h1

theorem lookup_upsert_self {κ α : Type} [DecidableEq κ] (m : List (κ × α)) (k : κ) (v : α) :
    lookup (upsert m k v) k = some v := by
  induction m with
  | nil => simp [upsert, lookup]
  | cons p rest ih =>
      obtain ⟨k', v'⟩ := p
      by_cases h : k' = k
      · simp [upsert, h, lookup]
      · simp [upsert, h, lookup, ih]

theorem lookup_upsert_ne {κ α : Type} [DecidableEq κ] (m : List (κ × α)) (k k' : κ) (v : α)
    (h : k' ≠ k) : lookup (upsert m k v) k' = lookup m k' := by
  induction m with
  | nil => simp [upsert, lookup, Ne.symm h]
  | cons p rest ih =>
      obtain ⟨k'', v''⟩ := p
      by_cases hk : k'' = k
      · subst hk; simp [upsert, lookup, Ne.symm h]
      · by_cases hk2 : k'' = k'
        · subst hk2; simp [upsert, hk, lookup]
        · simp [upsert, hk, lookup, hk2, ih]

theorem keysOf_upsert {κ α : Type} [DecidableEq κ] (m : List (κ × α)) (k : κ) (v : α) :
    keysOf (upsert m k v) = if k ∈ keysOf m then keysOf m else keysOf m ++ [k] := by
  induction m with
  | nil => simp [upsert, keysOf_nil, keysOf_cons]
  | cons p rest ih =>
      obtain ⟨k', v'⟩ := p
      by_cases h : k' = k
      · subst h; simp [upsert, keysOf_cons]
      · by_cases h2 : k ∈ keysOf rest
        · simp [upsert, h, keysOf_cons, Ne.symm h, h2, ih]
        · simp [upsert, h, keysOf_cons, Ne.symm h, h2, ih]

theorem length_upsert {κ α : Type} [DecidableEq κ] (m : List (κ × α)) (k : κ) (v : α) :
    (upsert m k v).length = if k ∈ keysOf m then m.length else m.length + 1 := by
  have h1 : (upsert m k v).length = (keysOf (upsert m k v)).length := by
    simp [keysOf]
  have h2 : m.length = (keysOf m).length := by simp [keysOf]
  rw [h1, h2, keysOf_upsert]
  split <;> simp

theorem nodup_keysOf_upsert {κ α : Type} [DecidableEq κ] (m : List (κ × α)) (k : κ) (v : α)
    (h : (keysOf m).Nodup) : (keysOf (upsert m k v)).Nodup := by
  rw [keysOf_upsert]
  split
  · exact h
  · next hk => simpa [List.nodup_append] using ⟨h, hk⟩

theorem mem_keysOf_upsert_self {κ α : Type} [DecidableEq κ] (m : List (κ × α)) (k : κ) (v : α) :
    k ∈ keysOf (upsert m k v) := by
  rw [mem_keysOf_iff, lookup_upsert_self]; rfl

theorem map_fst_upsert {κ α : Type} [DecidableEq κ] (m : List (κ × α)) (k : κ) (v : α)
    (f : κ → Nat) :
    (upsert m k v).map (fun p => f p.1) =
      if k ∈ keysOf m then m.map (fun p => f p.1) else m.map (fun p => f p.1) ++ [f k] := by
  induction m with
  | nil => simp [upsert, keysOf_nil]
  | cons p rest ih =>
      obtain ⟨k', v'⟩ := p
      by_cases h : k' = k
      · subst h; simp [upsert, keysOf_cons]
      · by_cases h2 : k ∈ keysOf rest
        · simp [upsert, h, keysOf_cons, Ne.symm h, h2, ih]
        · simp [upsert, h, keysOf_cons, Ne.symm h, h2, ih]

/-! Helper lemmas about the two-level round-messages map. -/

theorem lookup_upsertRound_self (rms : List (Nat × List (NodeID × MessageReq))) (r : Nat)
    (k : NodeID) (v : MessageReq) :
    lookup (upsertRound rms r k v) r = some (upsert (lookupRound rms r) k v) := by
  induction rms with
  | nil => simp [upsertRound, lookup, lookupRound, upsert]
  | cons p rest ih =>
      obtain ⟨r', m⟩ := p
      by_cases h : r' = r
      · subst h; simp [upsertRound, lookup, lookupRound]
      · simp [upsertRound, h, lookup, lookupRound, ih]

theorem lookup_upsertRound_ne (rms : List (Nat × List (NodeID × MessageReq))) (r r' : Nat)
    (k : NodeID) (v : MessageReq) (h : r' ≠ r) :
    lookup (upsertRound rms r k v) r' = lookup rms r' := by
  induction rms with
  | nil => simp [upsertRound, lookup, Ne.symm h]
  | cons p rest ih =>
      obtain ⟨r'', m⟩ := p
      by_cases hk : r'' = r
      · subst hk; simp [upsertRound, lookup, Ne.symm h]
      · by_cases hk2 : r'' = r'
        · subst hk2; simp [upsertRound, hk, lookup]
        · simp [upsertRound, hk, lookup, hk2, ih]

theorem keysOf_upsertRound (rms : List (Nat × List (NodeID × MessageReq))) (r : Nat)
    (k : NodeID) (v : MessageReq) :
    keysOf (upsertRound rms r k v) = if r ∈ keysOf rms then keysOf rms else keysOf rms ++ [r] := by
  induction rms with
  | nil => simp [upsertRound, keysOf_nil, keysOf_cons]
  | cons p rest ih =>
      obtain ⟨r', m⟩ := p
      by_cases h : r' = r
      · subst h; simp [upsertRound, keysOf_cons]
      · by_cases h2 : r ∈ keysOf rest
        · simp [upsertRound, h, keysOf_cons, Ne.symm h, h2, ih]
        · simp [upsertRound, h, keysOf_cons, Ne.symm h, h2, ih]

theorem nodup_keysOf_upsertRound (rms : List (Nat × List (NodeID × MessageReq))) (r : Nat)
    (k : NodeID) (v : MessageReq) (h : (keysOf rms).Nodup) :
    (keysOf (upsertRound rms r k v)).Nodup := by
  rw [keysOf_upsertRound]
  split
  · exact h
  · next hk => simpa [List.nodup_append] using ⟨h, hk⟩

theorem inner_nodup_upsertRound (rms : List (Nat × List (NodeID × MessageReq))) (r : Nat)
    (k : NodeID) (v : MessageReq) (hnd : (keysOf rms).Nodup)
    (h : ∀ rm ∈ rms, (keysOf rm.2).Nodup) :
    ∀ rm ∈ upsertRound rms r k v, (keysOf rm.2).Nodup := by
  intro rm hrm
  have hnd2 := nodup_keysOf_upsertRound rms r k v hnd
  have hlk : lookup (upsertRound rms r k v) rm.1 = some rm.2 :=
    mem_lookup_of_nodup _ rm.1 rm.2 hnd2 hrm
  by_cases hr : rm.1 = r
  · rw [hr, lookup_upsertRound_self] at hlk
    have h2 : rm.2 = upsert (lookupRound rms r) k v := (Option.some.inj hlk).symm
    rw [h2]
    apply nodup_keysOf_upsert
    unfold lookupRound
    cases hlo : lookup rms r with
    | none => simp [keysOf_nil]
    | some m0 => simpa using h (r, m0) (lookup_mem _ _ _ hlo)
  · rw [lookup_upsertRound_ne _ _ _ _ _ hr] at hlk
    exact h (rm.1, rm.2) (lookup_mem _ _ _ hlk)

/-! Helper lemmas about the wrapped `uint64` sums. -/

theorem foldl_mod_sum {β : Type} (f : β → Nat) (l : List β) (a : Nat) :
    l.foldl (fun acc p => (acc + f p) % U64) (a % U64) = (a + (l.map f).sum) % U64 := by
  induction l generalizing a with
  | nil => simp
  | cons p rest ih =>
      simp only [List.foldl_cons, List.map_cons, List.sum_cons]
      rw [Nat.mod_add_mod, ih (a + f p), Nat.add_assoc]

theorem calculateTotalVotingPower_eq (v : VotingPowerConsensusMetadata) :
    v.calculateTotalVotingPower = (v.votingPowerMap.map Prod.snd).sum % U64 := by
  have h := foldl_mod_sum Prod.snd v.votingPowerMap 0
  simpa [VotingPowerConsensusMetadata.calculateTotalVotingPower] using h

theorem calculateMessagesVotingPower_eq (v : VotingPowerConsensusMetadata)
    (messages : List (NodeID × MessageReq)) :
    v.calculateMessagesVotingPower messages =
      (messages.map (fun p => lookupD v.votingPowerMap p.1)).sum % U64 := by
  have h := foldl_mod_sum (fun p : NodeID × MessageReq => lookupD v.votingPowerMap p.1) messages 0
  simpa [VotingPowerConsensusMetadata.calculateMessagesVotingPower] using h

theorem calculateMessagesVotingPower_nil (v : VotingPowerConsensusMetadata) :
    v.calculateMessagesVotingPower [] = 0 := rfl

theorem copyBytes_eq (b : List Nat) : copyBytes b = b := by
  induction b with
  | nil => rfl
  | cons x t ih => simp only [copyBytes, List.foldr_cons] at ih ⊢; rw [ih]

/-! Characterization and frame lemmas for `addMessage`. -/

theorem addMessage_not_validator (s : MessageStore) (msg : MessageReq)
    (h : msg.sender ∉ s.validators) : s.addMessage msg = s := by
  simp [MessageStore.addMessage, h]

theorem addMessage_preprepare (s : MessageStore) (msg : MessageReq)
    (ht : msg.msgType = MsgType.Preprepare) : s.addMessage msg = s := by
  simp [MessageStore.addMessage, ht]

theorem addMessage_prepare (s : MessageStore) (msg : MessageReq)
    (hv : msg.sender ∈ s.validators) (ht : msg.msgType = MsgType.Prepare) :
    s.addMessage msg = { s with prepared := upsert s.prepared msg.sender msg } := by
  simp [MessageStore.addMessage, hv, ht]

theorem addMessage_commit (s : MessageStore) (msg : MessageReq)
    (hv : msg.sender ∈ s.validators) (ht : msg.msgType = MsgType.Commit) :
    s.addMessage msg = { s with committed := upsert s.committed msg.sender msg } := by
  simp [MessageStore.addMessage, hv, ht]

theorem addMessage_roundchange (s : MessageStore) (msg : MessageReq)
    (hv : msg.sender ∈ s.validators) (ht : msg.msgType = MsgType.RoundChange) :
    s.addMessage msg =
      { s with roundMessages := upsertRound s.roundMessages msg.view.round msg.sender msg } := by
  simp [MessageStore.addMessage, hv, ht]

theorem addMessage_frame (s : MessageStore) (msg : MessageReq) :
    (s.addMessage msg).validators = s.validators
    ∧ (s.addMessage msg).proposal = s.proposal
    ∧ (s.addMessage msg).locked = s.locked
    ∧ (s.addMessage msg).view = s.view := by
  by_cases hv : msg.sender ∈ s.validators
  · cases ht : msg.msgType
    · rw [addMessage_preprepare s msg ht]; exact ⟨rfl, rfl, rfl, rfl⟩
    · rw [addMessage_prepare s msg hv ht]; exact ⟨rfl, rfl, rfl, rfl⟩
    · rw [addMessage_commit s msg hv ht]; exact ⟨rfl, rfl, rfl, rfl⟩
    · rw [addMessage_roundchange s msg hv ht]; exact ⟨rfl, rfl, rfl, rfl⟩
  · rw [addMessage_not_validator s msg hv]; exact ⟨rfl, rfl, rfl, rfl⟩

theorem addMessage_prepared_of_ne (s : MessageStore) (msg : MessageReq)
    (ht : msg.msgType ≠ MsgType.Prepare) : (s.addMessage msg).prepared = s.prepared := by
  by_cases hv : msg.sender ∈ s.validators
  · cases htt : msg.msgType
    · rw [addMessage_preprepare s msg htt]
    · exact absurd htt ht
    · rw [addMessage_commit s msg hv htt]
    · rw [addMessage_roundchange s msg hv htt]
  · rw [addMessage_not_validator s msg hv]

theorem addMessage_committed_of_ne (s : MessageStore) (msg : MessageReq)
    (ht : msg.msgType ≠ MsgType.Commit) : (s.addMessage msg).committed = s.committed := by
  by_cases hv : msg.sender ∈ s.validators
  · cases htt : msg.msgType
    · rw [addMessage_preprepare s msg htt]
    · rw [addMessage_prepare s msg hv htt]
    · exact absurd htt ht
    · rw [addMessage_roundchange s msg hv htt]
  · rw [addMessage_not_validator s msg hv]

theorem addMessage_roundMessages_of_ne (s : MessageStore) (msg : MessageReq)
    (ht : msg.msgType ≠ MsgType.RoundChange) :
    (s.addMessage msg).roundMessages = s.roundMessages := by
  by_cases hv : msg.sender ∈ s.validators
  · cases htt : msg.msgType
    · rw [addMessage_preprepare s msg htt]
    · rw [addMessage_prepare s msg hv htt]
    · rw [addMessage_commit s msg hv htt]
    · exact absurd htt ht
  · rw [addMessage_not_validator s msg hv]

theorem WF_addMessage (s : MessageStore) (msg : MessageReq) (h : s.WF) :
    (s.addMessage msg).WF := by
  obtain ⟨h1, h2, h3, h4⟩ := h
  by_cases hv : msg.sender ∈ s.validators
  · cases ht : msg.msgType
    · rw [addMessage_preprepare s msg ht]; exact ⟨h1, h2, h3, h4⟩
    · rw [addMessage_prepare s msg hv ht]
      exact ⟨nodup_keysOf_upsert _ _ _ h1, h2, h3, h4⟩
    · rw [addMessage_commit s msg hv ht]
      exact ⟨h1, nodup_keysOf_upsert _ _ _ h2, h3, h4⟩
    · rw [addMessage_roundchange s msg hv ht]
      exact ⟨h1, h2, nodup_keysOf_upsertRound _ _ _ _ h3,
        inner_nodup_upsertRound _ _ _ _ h3 h4⟩
  · rw [addMessage_not_validator s msg hv]; exact ⟨h1, h2, h3, h4⟩

theorem WF_AddRoundMessage (s : MessageStore) (msg : MessageReq) (h : s.WF) :
    ((s.AddRoundMessage msg).2).WF := by
  unfold MessageStore.AddRoundMessage
  split
  · exact WF_addMessage s msg h
  · exact h

theorem WF_addPrepared (s : MessageStore) (msg : MessageReq) (h : s.WF) :
    (s.addPrepared msg).WF := by
  unfold MessageStore.addPrepared
  split
  · exact WF_addMessage s msg h
  · exact h

theorem WF_addCommitted (s : MessageStore) (msg : MessageReq) (h : s.WF) :
    (s.addCommitted msg).WF := by
  unfold MessageStore.addCommitted
  split
  · exact WF_addMessage s msg h
  · exact h

/-! Lemmas about the round-change search fold. -/

theorem mrFold_snd {α : Type} (p : Nat × α → Bool) (l : List (Nat × α)) (acc : Nat × Bool) :
    (l.foldl (mrStep p) acc).2 = (acc.2 || l.any p) := by
  induction l generalizing acc with
  | nil => simp
  | cons h t ih =>
      rw [List.foldl_cons, ih]
      cases hp : p h <;> cases hacc : acc.2 <;> simp [mrStep, hp, hacc]

theorem mrFold_le {α : Type} (p : Nat × α → Bool) (l : List (Nat × α)) (acc : Nat × Bool)
    (hacc : acc.2 = true) : acc.1 ≤ (l.foldl (mrStep p) acc).1 := by
  induction l generalizing acc with
  | nil => simp
  | cons h t ih =>
      rw [List.foldl_cons]
      by_cases hp : p h = true
      · have hstep : mrStep p acc h = (Nat.max acc.1 h.1, true) := by
          simp [mrStep, hp, hacc]
        rw [hstep]
        exact le_trans (Nat.le_max_left acc.1 h.1) (ih (Nat.max acc.1 h.1, true) rfl)
      · have hstep : mrStep p acc h = acc := by
          simp [mrStep, hp]
        rw [hstep]
        exact ih acc hacc

theorem mrFold_mem_le {α : Type} (p : Nat × α → Bool) (l : List (Nat × α)) (acc : Nat × Bool) :
    ∀ rm ∈ l, p rm = true → rm.1 ≤ (l.foldl (mrStep p) acc).1 := by
  induction l generalizing acc with
  | nil => intro rm hrm; simp at hrm
  | cons h t ih =>
      intro rm hrm hp
      rw [List.foldl_cons]
      rcases List.mem_cons.mp hrm with hrm | hrm
      · subst hrm
        have h1 : rm.1 ≤ (mrStep p acc rm).1 ∧ (mrStep p acc rm).2 = true := by
          cases hacc : acc.2 <;> simp [mrStep, hp, hacc, Nat.le_max_right]
        exact le_trans h1.1 (mrFold_le p t (mrStep p acc rm) h1.2)
      · exact ih (mrStep p acc h) rm hrm hp

theorem mrFold_not_found {α : Type} (p : Nat × α → Bool) (l : List (Nat × α)) (acc : Nat × Bool)
    (h : l.any p = false) : l.foldl (mrStep p) acc = acc := by
  induction l generalizing acc with
  | nil => rfl
  | cons hd t ih =>
      rw [List.any_cons] at h
      rcases Bool.or_eq_false_iff.mp h with ⟨h1, h2⟩
      rw [List.foldl_cons]
      have hstep : mrStep p acc hd = acc := by simp [mrStep, h1]
      rw [hstep]
      exact ih acc h2

theorem mrFold_found_src {α : Type} (p : Nat × α → Bool) (l : List (Nat × α)) (acc : Nat × Bool)
    (h : (l.foldl (mrStep p) acc).2 = true) :
    ((l.foldl (mrStep p) acc).1 = acc.1 ∧ acc.2 = true)
    ∨ ∃ rm ∈ l, p rm = true ∧ (l.foldl (mrStep p) acc).1 = rm.1 := by
  induction l generalizing acc with
  | nil => exact Or.inl ⟨rfl, h⟩
  | cons hd t ih =>
      rw [List.foldl_cons] at h ⊢
      by_cases hp : p hd = true
      · cases hacc : acc.2 with
        | false =>
            have hstep : mrStep p acc hd = (hd.1, true) := by simp [mrStep, hp, hacc]
            rw [hstep] at h ⊢
            rcases ih (hd.1, true) h with ⟨he, _⟩ | ⟨rm, hrm, hp2, he⟩
            · exact Or.inr ⟨hd, List.mem_cons_self _ _, hp, he⟩
            · exact Or.inr ⟨rm, List.mem_cons_of_mem _ hrm, hp2, he⟩
        | true =>
            have hstep : mrStep p acc hd = (Nat.max acc.1 hd.1, true) := by
              simp [mrStep, hp, hacc]
            rw [hstep] at h ⊢
            rcases ih (Nat.max acc.1 hd.1, true) h with ⟨he, _⟩ | ⟨rm, hrm, hp2, he⟩
            · rcases Nat.le_total hd.1 acc.1 with hle | hle
              · refine Or.inl ⟨?_, rfl⟩
                rw [he]; exact Nat.max_eq_left hle
              · refine Or.inr ⟨hd, List.mem_cons_self _ _, hp, ?_⟩
                rw [he]; exact Nat.max_eq_right hle
            · exact Or.inr ⟨rm, List.mem_cons_of_mem _ hrm, hp2, he⟩
      · have hstep : mrStep p acc hd = acc := by simp [mrStep, hp]
        rw [hstep] at h ⊢
        rcases ih acc h with hl | ⟨rm, hrm, hp2, he⟩
        · exact Or.inl hl
        · exact Or.inr ⟨rm, List.mem_cons_of_mem _ hrm, hp2, he⟩

/-! Claim theorems. -/

/-- C2: for the node-count model with `N` validators, `MaxFaultyNodes` is
`⌊(N-1)/3⌋` for `N ≥ 1` and `0` for `N = 0`, and `QuorumSize` is
`2*MaxFaultyNodes + 1` (hence `1` for `N = 0`); for the voting-power model
with total voting power `T` (not wrapping a `uint64`), `MaxFaultyNodes` is
`⌊(T-1)/3⌋` for `T ≥ 1` and `0` for `T = 0`, and `QuorumSize` is
`2*MaxFaultyNodes + 1`. -/
theorem pbft_C2_quorum_formulas (n : Nat) (v : VotingPowerConsensusMetadata)
    (hn : 1 ≤ n)
    (hT1 : 1 ≤ (v.votingPowerMap.map Prod.snd).sum)
    (hT2 : (v.votingPowerMap.map Prod.snd).sum < U64) :
    NodesCountConsensusMetadata.MaxFaultyNodes ⟨n⟩ = (n - 1) / 3
    ∧ NodesCountConsensusMetadata.MaxFaultyNodes ⟨0⟩ = 0
    ∧ (∀ m : NodesCountConsensusMetadata, m.QuorumSize = 2 * m.MaxFaultyNodes + 1)
    ∧ NodesCountConsensusMetadata.QuorumSize ⟨0⟩ = 1
    ∧ v.MaxFaultyNodes = ((v.votingPowerMap.map Prod.snd).sum - 1) / 3
    ∧ (∀ w : VotingPowerConsensusMetadata,
        (w.votingPowerMap.map Prod.snd).sum = 0 → w.MaxFaultyNodes = 0)
    ∧ (∀ w : VotingPowerConsensusMetadata, w.QuorumSize = 2 * w.MaxFaultyNodes + 1) := by
  have hTot : v.calculateTotalVotingPower = (v.votingPowerMap.map Prod.snd).sum := by
    rw [calculateTotalVotingPower_eq]
    exact Nat.mod_eq_of_lt hT2
  refine ⟨?_, rfl, fun m => rfl, rfl, ?_, ?_, fun w => rfl⟩
  · have hne : n ≠ 0 := Nat.one_le_iff_ne_zero.mp hn
    simp [NodesCountConsensusMetadata.MaxFaultyNodes, hne]
  · have hne : v.calculateTotalVotingPower ≠ 0 := by
      rw [hTot]; exact Nat.one_le_iff_ne_zero.mp hT1
    rw [VotingPowerConsensusMetadata.MaxFaultyNodes, if_neg hne, hTot]
  · intro w hw
    have h0 : w.calculateTotalVotingPower = 0 := by
      rw [calculateTotalVotingPower_eq, hw]
      rfl
    rw [VotingPowerConsensusMetadata.MaxFaultyNodes, if_pos h0]

/-- Witness for C2 at `N = 4` and an equal-weight four-validator map
(`T = 4`). -/
theorem pbft_C2_quorum_formulas_witness :
    NodesCountConsensusMetadata.MaxFaultyNodes ⟨4⟩ = (4 - 1) / 3
    ∧ NodesCountConsensusMetadata.MaxFaultyNodes ⟨0⟩ = 0
    ∧ (∀ m : NodesCountConsensusMetadata, m.QuorumSize = 2 * m.MaxFaultyNodes + 1)
    ∧ NodesCountConsensusMetadata.QuorumSize ⟨0⟩ = 1
    ∧ VotingPowerConsensusMetadata.MaxFaultyNodes
        ⟨CreateEqualWeightValidatorsMap ["A", "B", "C", "D"]⟩
      = ((CreateEqualWeightValidatorsMap ["A", "B", "C", "D"]).map Prod.snd).sum / 3
    ∧ (∀ w : VotingPowerConsensusMetadata,
        (w.votingPowerMap.map Prod.snd).sum = 0 → w.MaxFaultyNodes = 0)
    ∧ (∀ w : VotingPowerConsensusMetadata, w.QuorumSize = 2 * w.MaxFaultyNodes + 1) := by
  have h := pbft_C2_quorum_formulas 4 ⟨CreateEqualWeightValidatorsMap ["A", "B", "C", "D"]⟩
    (by decide) (by decide) (by decide)
  simpa using h

/-- C9: both `MaxFaultyNodes` variants are total and panic-free — the zero
guard makes the unsigned subtraction reachable only on an operand of at
least 1, so the checked computation never underflows and agrees with the
unchecked one on every input. -/
theorem pbft_C9_maxFaulty_panic_free :
    (∀ n : NodesCountConsensusMetadata, n.MaxFaultyNodesChecked = some n.MaxFaultyNodes)
    ∧ (∀ v : VotingPowerConsensusMetadata,
        v.MaxFaultyNodesChecked = some v.MaxFaultyNodes) := by
  constructor
  · intro n
    unfold NodesCountConsensusMetadata.MaxFaultyNodesChecked
      NodesCountConsensusMetadata.MaxFaultyNodes
    by_cases h : n.nodesCount = 0
    · simp [h]
    · have h1 : 1 ≤ n.nodesCount := Nat.one_le_iff_ne_zero.mpr h
      simp [h, checkedSub, h1]
  · intro v
    unfold VotingPowerConsensusMetadata.MaxFaultyNodesChecked
      VotingPowerConsensusMetadata.MaxFaultyNodes
    by_cases h : v.calculateTotalVotingPower = 0
    · simp [h]
    · have h1 : 1 ≤ v.calculateTotalVotingPower := Nat.one_le_iff_ne_zero.mpr h
      simp [h, checkedSub, h1]

/-- C10: a sender absent from `votingPowerMap` contributes exactly `0` to
`calculateMessagesVotingPower` — its zero-value lookup is `0`, and adding
such a sender's message to a message map never changes the aggregated
voting power. -/
theorem pbft_C10_absent_sender_zero_power (v : VotingPowerConsensusMetadata)
    (messages : List (NodeID × MessageReq)) (sender : NodeID) (m : MessageReq)
    (h : lookup v.votingPowerMap sender = none) :
    lookupD v.votingPowerMap sender = 0
    ∧ v.calculateMessagesVotingPower (upsert messages sender m)
        = v.calculateMessagesVotingPower messages := by
  have h0 : lookupD v.votingPowerMap sender = 0 := by simp [lookupD, h]
  refine ⟨h0, ?_⟩
  rw [calculateMessagesVotingPower_eq, calculateMessagesVotingPower_eq]
  rw [map_fst_upsert messages sender m (fun k => lookupD v.votingPowerMap k)]
  split
  · rfl
  · rw [List.sum_append]
    simp [h0]

/-- Witness for C10: validator map `{A ↦ 1}`, an unknown sender `B`. -/
theorem pbft_C10_absent_sender_zero_power_witness :
    lookupD (VotingPowerConsensusMetadata.votingPowerMap ⟨[("A", 1)]⟩) "B" = 0
    ∧ VotingPowerConsensusMetadata.calculateMessagesVotingPower ⟨[("A", 1)]⟩
        (upsert [] "B" (mkMsg "B" MsgType.RoundChange 0))
      = VotingPowerConsensusMetadata.calculateMessagesVotingPower ⟨[("A", 1)]⟩ [] :=
  pbft_C10_absent_sender_zero_power ⟨[("A", 1)]⟩ [] "B" (mkMsg "B" MsgType.RoundChange 0)
    (by decide)

/-- C4: a message whose sender is not a member of the validator set is
dropped silently — the store is left entirely unchanged: `numPrepared`,
`numCommitted`, and every `roundMessages` entry are identical before and
after the call. -/
theorem pbft_C4_non_validator_dropped (s : MessageStore) (msg : MessageReq)
    (h : msg.sender ∉ s.validators) :
    s.addMessage msg = s
    ∧ (s.addMessage msg).numPrepared = s.numPrepared
    ∧ (s.addMessage msg).numCommitted = s.numCommitted
    ∧ ∀ r : Nat,
        lookupRound (s.addMessage msg).roundMessages r = lookupRound s.roundMessages r := by
  have he := addMessage_not_validator s msg h
  exact ⟨he, by rw [he], by rw [he], fun r => by rw [he]⟩

/-- Witness for C4: validators `{A}`, a Prepare message from the outsider
`E`. -/
theorem pbft_C4_non_validator_dropped_witness :
    (mkStore ["A"]).addMessage (mkMsg "E" MsgType.Prepare 0) = mkStore ["A"]
    ∧ ((mkStore ["A"]).addMessage (mkMsg "E" MsgType.Prepare 0)).numPrepared
        = (mkStore ["A"]).numPrepared
    ∧ ((mkStore ["A"]).addMessage (mkMsg "E" MsgType.Prepare 0)).numCommitted
        = (mkStore ["A"]).numCommitted
    ∧ ∀ r : Nat,
        lookupRound ((mkStore ["A"]).addMessage (mkMsg "E" MsgType.Prepare 0)).roundMessages r
          = lookupRound (mkStore ["A"]).roundMessages r :=
  pbft_C4_non_validator_dropped (mkStore ["A"]) (mkMsg "E" MsgType.Prepare 0) (by decide)

/-- C5: `AddRoundMessage` returns `(0, unchanged store)` on a non-RoundChange
message; on a RoundChange message from a validator it upserts the message
into `roundMessages[msg.view.round]`, returns the number of entries of that
round after the insertion, and leaves `prepared` and `committed` unchanged. -/
theorem pbft_C5_addRoundMessage (s : MessageStore) (msg : MessageReq) :
    (msg.msgType ≠ MsgType.RoundChange → s.AddRoundMessage msg = (0, s))
    ∧ (msg.msgType = MsgType.RoundChange → msg.sender ∈ s.validators →
        ((s.AddRoundMessage msg).2.roundMessages
            = upsertRound s.roundMessages msg.view.round msg.sender msg
          ∧ lookupRound (s.AddRoundMessage msg).2.roundMessages msg.view.round
              = upsert (lookupRound s.roundMessages msg.view.round) msg.sender msg
          ∧ (s.AddRoundMessage msg).1
              = (lookupRound (s.AddRoundMessage msg).2.roundMessages msg.view.round).length
          ∧ (s.AddRoundMessage msg).2.prepared = s.prepared
          ∧ (s.AddRoundMessage msg).2.committed = s.committed)) := by
  constructor
  · intro hne
    simp [MessageStore.AddRoundMessage, hne]
  · intro ht hv
    have ha := addMessage_roundchange s msg hv ht
    have h2 : (s.AddRoundMessage msg).2 = s.addMessage msg := by
      simp [MessageStore.AddRoundMessage, ht]
    have h1 : (s.AddRoundMessage msg).1
        = (lookupRound (s.addMessage msg).roundMessages msg.view.round).length := by
      simp [MessageStore.AddRoundMessage, ht]
    refine ⟨?_, ?_, ?_, ?_, ?_⟩
    · rw [h2, ha]
    · rw [h2, ha]
      show lookupRound (upsertRound s.roundMessages msg.view.round msg.sender msg)
          msg.view.round = _
      rw [lookupRound, lookup_upsertRound_self]
      rfl
    · rw [h1, h2]
    · rw [h2, ha]
    · rw [h2, ha]

/-- Witness for C5: validators `{A, B}`; a Commit message is rejected with
`(0, unchanged)`, and a RoundChange from the member `A` at round 2 is
upserted into that round's map. -/
theorem pbft_C5_addRoundMessage_witness :
    (mkStore ["A", "B"]).AddRoundMessage (mkMsg "A" MsgType.Commit 0) = (0, mkStore ["A", "B"])
    ∧ ((mkStore ["A", "B"]).AddRoundMessage (mkMsg "A" MsgType.RoundChange 2)).2.roundMessages
        = upsertRound (mkStore ["A", "B"]).roundMessages 2 "A"
            (mkMsg "A" MsgType.RoundChange 2)
    ∧ ((mkStore ["A", "B"]).AddRoundMessage (mkMsg "A" MsgType.RoundChange 2)).1
        = (lookupRound
            (((mkStore ["A", "B"]).AddRoundMessage (mkMsg "A" MsgType.RoundChange 2)).2.roundMessages)
            2).length := by
  refine ⟨?_, ?_, ?_⟩
  · exact (pbft_C5_addRoundMessage (mkStore ["A", "B"]) (mkMsg "A" MsgType.Commit 0)).1
      (by decide)
  · exact ((pbft_C5_addRoundMessage (mkStore ["A", "B"])
      (mkMsg "A" MsgType.RoundChange 2)).2 rfl (by decide)).1
  · exact ((pbft_C5_addRoundMessage (mkStore ["A", "B"])
      (mkMsg "A" MsgType.RoundChange 2)).2 rfl (by decide)).2.2.1

/-- C6: for a store with a non-empty proposal, `lock` makes `IsLocked` true
and preserves the proposal; a subsequent `unlock` makes `IsLocked` false and
clears the proposal; and every operation preserves the invariant
`locked = true → proposal ≠ empty` (for `lock` itself, under the caller's
obligation that a proposal is already set). -/
theorem pbft_C6_lock_unlock (s : MessageStore) (msg : MessageReq)
    (h : s.proposal ≠ none) :
    s.lock.IsLocked = true
    ∧ s.lock.proposal = s.proposal
    ∧ s.lock.unlock.IsLocked = false
    ∧ s.lock.unlock.proposal = none
    ∧ s.lock.LockInv
    ∧ (∀ t : MessageStore, t.LockInv →
        ((t.addMessage msg).LockInv
          ∧ ((t.AddRoundMessage msg).2).LockInv
          ∧ (t.addPrepared msg).LockInv
          ∧ (t.addCommitted msg).LockInv
          ∧ t.unlock.LockInv)) := by
  have hAdd : ∀ t : MessageStore, t.LockInv → (t.addMessage msg).LockInv := by
    intro t ht hl
    have hf := addMessage_frame t msg
    rw [hf.2.1]
    exact ht (hf.2.2.1 ▸ hl)
  refine ⟨rfl, rfl, rfl, rfl, fun _ => h, ?_⟩
  intro t ht
  refine ⟨hAdd t ht, ?_, ?_, ?_, ?_⟩
  · unfold MessageStore.AddRoundMessage
    split
    · exact hAdd t ht
    · exact ht
  · unfold MessageStore.addPrepared
    split
    · exact hAdd t ht
    · exact ht
  · unfold MessageStore.addCommitted
    split
    · exact hAdd t ht
    · exact ht
  · intro hl
    simp [MessageStore.unlock] at hl

/-- Witness for C6: a single-validator store holding a set proposal. -/
theorem pbft_C6_lock_unlock_witness :
    ({ mkStore ["A"] with proposal := some { data := [9], time := 0 } } : MessageStore).lock.IsLocked
      = true
    ∧ ({ mkStore ["A"] with
          proposal := some { data := [9], time := 0 } } : MessageStore).lock.proposal
        = ({ mkStore ["A"] with
            proposal := some { data := [9], time := 0 } } : MessageStore).proposal
    ∧ ({ mkStore ["A"] with
          proposal := some { data := [9], time := 0 } } : MessageStore).lock.unlock.IsLocked
        = false
    ∧ ({ mkStore ["A"] with
          proposal := some { data := [9], time := 0 } } : MessageStore).lock.unlock.proposal
        = none
    ∧ ({ mkStore ["A"] with
          proposal := some { data := [9], time := 0 } } : MessageStore).lock.LockInv
    ∧ (∀ t : MessageStore, t.LockInv →
        ((t.addMessage (mkMsg "A" MsgType.Prepare 0)).LockInv
          ∧ ((t.AddRoundMessage (mkMsg "A" MsgType.Prepare 0)).2).LockInv
          ∧ (t.addPrepared (mkMsg "A" MsgType.Prepare 0)).LockInv
          ∧ (t.addCommitted (mkMsg "A" MsgType.Prepare 0)).LockInv
          ∧ t.unlock.LockInv)) :=
  pbft_C6_lock_unlock { mkStore ["A"] with proposal := some { data := [9], time := 0 } }
    (mkMsg "A" MsgType.Prepare 0) (by simp)

/-- C8: `addPrepared` and `addCommitted` are type-guarded — a non-matching
message leaves the store entirely unchanged; a matching message touches only
the corresponding tally, leaving the other tally, `roundMessages`, and all
remaining fields unchanged; and a Preprepare message is never tallied by
`addMessage`, `addPrepared`, `addCommitted` or `AddRoundMessage`. -/
theorem pbft_C8_type_guards (s : MessageStore) (msg : MessageReq) :
    (msg.msgType ≠ MsgType.Prepare → s.addPrepared msg = s)
    ∧ (msg.msgType ≠ MsgType.Commit → s.addCommitted msg = s)
    ∧ (msg.msgType = MsgType.Prepare →
        ((s.addPrepared msg).committed = s.committed
          ∧ (s.addPrepared msg).roundMessages = s.roundMessages
          ∧ (s.addPrepared msg).validators = s.validators
          ∧ (s.addPrepared msg).proposal = s.proposal
          ∧ (s.addPrepared msg).locked = s.locked
          ∧ (s.addPrepared msg).view = s.view))
    ∧ (msg.msgType = MsgType.Commit →
        ((s.addCommitted msg).prepared = s.prepared
          ∧ (s.addCommitted msg).roundMessages = s.roundMessages
          ∧ (s.addCommitted msg).validators = s.validators
          ∧ (s.addCommitted msg).proposal = s.proposal
          ∧ (s.addCommitted msg).locked = s.locked
          ∧ (s.addCommitted msg).view = s.view))
    ∧ (msg.msgType = MsgType.Preprepare →
        (s.addMessage msg = s ∧ s.addPrepared msg = s ∧ s.addCommitted msg = s
          ∧ s.AddRoundMessage msg = (0, s))) := by
  refine ⟨?_, ?_, ?_, ?_, ?_⟩
  · intro hne
    simp [MessageStore.addPrepared, hne]
  · intro hne
    simp [MessageStore.addCommitted, hne]
  · intro ht
    have he : s.addPrepared msg = s.addMessage msg := by
      simp [MessageStore.addPrepared, ht]
    have hf := addMessage_frame s msg
    rw [he]
    exact ⟨addMessage_committed_of_ne s msg (by rw [ht]; intro hcon; cases hcon),
      addMessage_roundMessages_of_ne s msg (by rw [ht]; intro hcon; cases hcon),
      hf.1, hf.2.1, hf.2.2.1, hf.2.2.2⟩
  · intro ht
    have he : s.addCommitted msg = s.addMessage msg := by
      simp [MessageStore.addCommitted, ht]
    have hf := addMessage_frame s msg
    rw [he]
    exact ⟨addMessage_prepared_of_ne s msg (by rw [ht]; intro hcon; cases hcon),
      addMessage_roundMessages_of_ne s msg (by rw [ht]; intro hcon; cases hcon),
      hf.1, hf.2.1, hf.2.2.1, hf.2.2.2⟩
  · intro ht
    refine ⟨addMessage_preprepare s msg ht, ?_, ?_, ?_⟩
    · simp [MessageStore.addPrepared, ht]
    · simp [MessageStore.addCommitted, ht]
    · simp [MessageStore.AddRoundMessage, ht]

/-- Witness for C8: the guards and frame conditions at concrete inputs —
a Commit into `addPrepared` (rejected), a Prepare into `addPrepared`
(committed tally untouched), and a Preprepare through every path. -/
theorem pbft_C8_type_guards_witness :
    (mkStore ["A"]).addPrepared (mkMsg "A" MsgType.Commit 0) = mkStore ["A"]
    ∧ ((mkStore ["A"]).addPrepared (mkMsg "A" MsgType.Prepare 0)).committed
        = (mkStore ["A"]).committed
    ∧ (mkStore ["A"]).addMessage (mkMsg "A" MsgType.Preprepare 0) = mkStore ["A"]
    ∧ (mkStore ["A"]).AddRoundMessage (mkMsg "A" MsgType.Preprepare 0)
        = (0, mkStore ["A"]) := by
  refine ⟨?_, ?_, ?_, ?_⟩
  · exact (pbft_C8_type_guards (mkStore ["A"]) (mkMsg "A" MsgType.Commit 0)).1 (by decide)
  · exact ((pbft_C8_type_guards (mkStore ["A"]) (mkMsg "A" MsgType.Prepare 0)).2.2.1 rfl).1
  · exact ((pbft_C8_type_guards (mkStore ["A"]) (mkMsg "A" MsgType.Preprepare 0)).2.2.2.2 rfl).1
  · exact ((pbft_C8_type_guards (mkStore ["A"])
      (mkMsg "A" MsgType.Preprepare 0)).2.2.2.2 rfl).2.2.2

/-- Delivering further copies of a Prepare message whose sender is already
tallied (or not a validator) never changes `numPrepared`. -/
theorem numPrepared_replicate (msg : MessageReq) (hp : msg.msgType = MsgType.Prepare) :
    ∀ (k : Nat) (t : MessageStore),
      (msg.sender ∈ t.validators → msg.sender ∈ keysOf t.prepared) →
      (t.addMessages (List.replicate k msg)).numPrepared = t.numPrepared := by
  intro k
  induction k with
  | zero => intro t ht; rfl
  | succ k ih =>
      intro t ht
      rw [List.replicate_succ]
      show (MessageStore.addMessages (t.addMessage msg) (List.replicate k msg)).numPrepared
        = t.numPrepared
      have h1 : (t.addMessage msg).numPrepared = t.numPrepared := by
        by_cases hv : msg.sender ∈ t.validators
        · rw [addMessage_prepare t msg hv hp]
          show (upsert t.prepared msg.sender msg).length = t.prepared.length
          rw [length_upsert, if_pos (ht hv)]
        · rw [addMessage_not_validator t msg hv]
      have h2 : msg.sender ∈ (t.addMessage msg).validators →
          msg.sender ∈ keysOf (t.addMessage msg).prepared := by
        intro hv2
        rw [(addMessage_frame t msg).1] at hv2
        rw [addMessage_prepare t msg hv2 hp]
        exact mem_keysOf_upsert_self _ _ _
      rw [ih (t.addMessage msg) h2, h1]

/-- Delivering further copies of a Commit message whose sender is already
tallied (or not a validator) never changes `numCommitted`. -/
theorem numCommitted_replicate (msg : MessageReq) (hc : msg.msgType = MsgType.Commit) :
    ∀ (k : Nat) (t : MessageStore),
      (msg.sender ∈ t.validators → msg.sender ∈ keysOf t.committed) →
      (t.addMessages (List.replicate k msg)).numCommitted = t.numCommitted := by
  intro k
  induction k with
  | zero => intro t ht; rfl
  | succ k ih =>
      intro t ht
      rw [List.replicate_succ]
      show (MessageStore.addMessages (t.addMessage msg) (List.replicate k msg)).numCommitted
        = t.numCommitted
      have h1 : (t.addMessage msg).numCommitted = t.numCommitted := by
        by_cases hv : msg.sender ∈ t.validators
        · rw [addMessage_commit t msg hv hc]
          show (upsert t.committed msg.sender msg).length = t.committed.length
          rw [length_upsert, if_pos (ht hv)]
        · rw [addMessage_not_validator t msg hv]
      have h2 : msg.sender ∈ (t.addMessage msg).validators →
          msg.sender ∈ keysOf (t.addMessage msg).committed := by
        intro hv2
        rw [(addMessage_frame t msg).1] at hv2
        rw [addMessage_commit t msg hv2 hc]
        exact mem_keysOf_upsert_self _ _ _
      rw [ih (t.addMessage msg) h2, h1]

/-- C3: every ingestion operation preserves the at-most-one-entry-per-key
invariant of `prepared`, `committed` and `roundMessages`; sending `k ≥ 1`
copies of the same Prepare (resp. Commit) message leaves `numPrepared`
(resp. `numCommitted`) at its value after the first insertion; and the later
duplicate replaces the stored entry (last-write-wins). -/
theorem pbft_C3_dedup_invariant (s : MessageStore) (msg m1 m2 : MessageReq) (k : Nat)
    (hWF : s.WF) (hk : 1 ≤ k)
    (hp : m1.msgType = MsgType.Prepare) (hc : m2.msgType = MsgType.Commit) :
    (s.addMessage msg).WF
    ∧ ((s.AddRoundMessage msg).2).WF
    ∧ (s.addPrepared msg).WF
    ∧ (s.addCommitted msg).WF
    ∧ (s.addMessages (List.replicate k m1)).numPrepared = (s.addMessage m1).numPrepared
    ∧ (s.addMessages (List.replicate k m2)).numCommitted = (s.addMessage m2).numCommitted
    ∧ (m1.sender ∈ s.validators →
        lookup (s.addMessage m1).prepared m1.sender = some m1)
    ∧ (m2.sender ∈ s.validators →
        lookup (s.addMessage m2).committed m2.sender = some m2) := by
  obtain ⟨j, hj⟩ := Nat.exists_eq_add_of_le hk
  refine ⟨WF_addMessage s msg hWF, WF_AddRoundMessage s msg hWF,
    WF_addPrepared s msg hWF, WF_addCommitted s msg hWF, ?_, ?_, ?_, ?_⟩
  · rw [hj, Nat.add_comm, List.replicate_succ]
    show (MessageStore.addMessages (s.addMessage m1) (List.replicate j m1)).numPrepared = _
    apply numPrepared_replicate m1 hp j
    intro hv2
    rw [(addMessage_frame s m1).1] at hv2
    rw [addMessage_prepare s m1 hv2 hp]
    exact mem_keysOf_upsert_self _ _ _
  · rw [hj, Nat.add_comm, List.replicate_succ]
    show (MessageStore.addMessages (s.addMessage m2) (List.replicate j m2)).numCommitted = _
    apply numCommitted_replicate m2 hc j
    intro hv2
    rw [(addMessage_frame s m2).1] at hv2
    rw [addMessage_commit s m2 hv2 hc]
    exact mem_keysOf_upsert_self _ _ _
  · intro hv
    rw [addMessage_prepare s m1 hv hp]
    exact lookup_upsert_self _ _ _
  · intro hv
    rw [addMessage_commit s m2 hv hc]
    exact lookup_upsert_self _ _ _

/-- Witness for C3: validators `{A, B}`, two copies of the same Prepare from
`A` and of the same Commit from `B`, plus a RoundChange through every
operation. -/
theorem pbft_C3_dedup_invariant_witness :
    ((mkStore ["A", "B"]).addMessage (mkMsg "A" MsgType.RoundChange 1)).WF
    ∧ (((mkStore ["A", "B"]).AddRoundMessage (mkMsg "A" MsgType.RoundChange 1)).2).WF
    ∧ ((mkStore ["A", "B"]).addPrepared (mkMsg "A" MsgType.RoundChange 1)).WF
    ∧ ((mkStore ["A", "B"]).addCommitted (mkMsg "A" MsgType.RoundChange 1)).WF
    ∧ ((mkStore ["A", "B"]).addMessages
          (List.replicate 2 (mkMsg "A" MsgType.Prepare 0))).numPrepared
        = ((mkStore ["A", "B"]).addMessage (mkMsg "A" MsgType.Prepare 0)).numPrepared
    ∧ ((mkStore ["A", "B"]).addMessages
          (List.replicate 2 (mkMsg "B" MsgType.Commit 0))).numCommitted
        = ((mkStore ["A", "B"]).addMessage (mkMsg "B" MsgType.Commit 0)).numCommitted
    ∧ ((mkMsg "A" MsgType.Prepare 0).sender ∈ (mkStore ["A", "B"]).validators →
        lookup ((mkStore ["A", "B"]).addMessage (mkMsg "A" MsgType.Prepare 0)).prepared
            (mkMsg "A" MsgType.Prepare 0).sender
          = some (mkMsg "A" MsgType.Prepare 0))
    ∧ ((mkMsg "B" MsgType.Commit 0).sender ∈ (mkStore ["A", "B"]).validators →
        lookup ((mkStore ["A", "B"]).addMessage (mkMsg "B" MsgType.Commit 0)).committed
            (mkMsg "B" MsgType.Commit 0).sender
          = some (mkMsg "B" MsgType.Commit 0)) :=
  pbft_C3_dedup_invariant (mkStore ["A", "B"]) (mkMsg "A" MsgType.RoundChange 1)
    (mkMsg "A" MsgType.Prepare 0) (mkMsg "B" MsgType.Commit 0) 2
    ⟨List.nodup_nil, List.nodup_nil, List.nodup_nil, by simp [mkStore]⟩
    (by decide) rfl rfl

/-- C7: `getCommittedSeals` yields exactly one seal per distinct committing
sender (no duplicate node ids), and each entry's signature bytes are a
structural copy of — equal in content to — the seal stored in that sender's
Commit message. -/
theorem pbft_C7_committed_seals (s : MessageStore) (hWF : s.WF) :
    (s.getCommittedSeals).map CommittedSeal.nodeId = keysOf s.committed
    ∧ ((s.getCommittedSeals).map CommittedSeal.nodeId).Nodup
    ∧ (s.getCommittedSeals).length = s.numCommitted
    ∧ (∀ cs ∈ s.getCommittedSeals, ∃ m : MessageReq,
        lookup s.committed cs.nodeId = some m
        ∧ cs.signature = copyBytes m.Seal ∧ copyBytes m.Seal = m.Seal) := by
  have h1 : (s.getCommittedSeals).map CommittedSeal.nodeId = keysOf s.committed := by
    simp [MessageStore.getCommittedSeals, keysOf, List.map_map]
  refine ⟨h1, ?_, ?_, ?_⟩
  · rw [h1]; exact hWF.2.1
  · simp [MessageStore.getCommittedSeals, MessageStore.numCommitted]
  · intro cs hcs
    obtain ⟨p, hp, he⟩ := List.mem_map.mp hcs
    refine ⟨p.2, ?_, ?_, copyBytes_eq _⟩
    · have hn : cs.nodeId = p.1 := by rw [← he]
      rw [hn]
      exact mem_lookup_of_nodup _ _ _ hWF.2.1 hp
    · rw [← he]

/-- Witness for C7: two committed validators `A`, `B` with stored seals. -/
theorem pbft_C7_committed_seals_witness :
    ((((mkStore ["A", "B"]).addCommitted (mkMsg "A" MsgType.Commit 0)).addCommitted
          (mkMsg "B" MsgType.Commit 0)).getCommittedSeals).map CommittedSeal.nodeId
      = keysOf (((mkStore ["A", "B"]).addCommitted (mkMsg "A" MsgType.Commit 0)).addCommitted
          (mkMsg "B" MsgType.Commit 0)).committed
    ∧ (((((mkStore ["A", "B"]).addCommitted (mkMsg "A" MsgType.Commit 0)).addCommitted
          (mkMsg "B" MsgType.Commit 0)).getCommittedSeals).map CommittedSeal.nodeId).Nodup
    ∧ ((((mkStore ["A", "B"]).addCommitted (mkMsg "A" MsgType.Commit 0)).addCommitted
          (mkMsg "B" MsgType.Commit 0)).getCommittedSeals).length
        = (((mkStore ["A", "B"]).addCommitted (mkMsg "A" MsgType.Commit 0)).addCommitted
          (mkMsg "B" MsgType.Commit 0)).numCommitted
    ∧ (∀ cs ∈ (((mkStore ["A", "B"]).addCommitted (mkMsg "A" MsgType.Commit 0)).addCommitted
          (mkMsg "B" MsgType.Commit 0)).getCommittedSeals, ∃ m : MessageReq,
        lookup (((mkStore ["A", "B"]).addCommitted
            (mkMsg "A" MsgType.Commit 0)).addCommitted
            (mkMsg "B" MsgType.Commit 0)).committed cs.nodeId = some m
        ∧ cs.signature = copyBytes m.Seal ∧ copyBytes m.Seal = m.Seal) :=
  pbft_C7_committed_seals
    (((mkStore ["A", "B"]).addCommitted (mkMsg "A" MsgType.Commit 0)).addCommitted
      (mkMsg "B" MsgType.Commit 0))
    (WF_addCommitted _ _ (WF_addCommitted _ _
      ⟨List.nodup_nil, List.nodup_nil, List.nodup_nil, by simp [mkStore]⟩))

/-- C1: `maxRound` returns `(r, true)` where `r` is the highest round whose
round-change senders aggregate voting power at least `MaxFaultyNodes + 1`;
when no round reaches that threshold it returns `(0, false)`; when several
rounds reach it, the highest round number wins. -/
theorem pbft_C1_maxRound (s : MessageStore) (v : VotingPowerConsensusMetadata)
    (hWF : (keysOf s.roundMessages).Nodup) :
    ((s.maxRound v).2 = true →
      (s.roundQualifies v (s.maxRound v).1
        ∧ ∀ r : Nat, s.roundQualifies v r → r ≤ (s.maxRound v).1))
    ∧ ((s.maxRound v).2 = false →
      ((s.maxRound v).1 = 0 ∧ ∀ r : Nat, ¬ s.roundQualifies v r)) := by
  have hmr : s.maxRound v = s.roundMessages.foldl
      (mrStep (fun rm => decide (v.MaxFaultyNodes + 1 ≤ v.calculateMessagesVotingPower rm.2)))
      (0, false) := rfl
  set p : Nat × List (NodeID × MessageReq) → Bool :=
    fun rm => decide (v.MaxFaultyNodes + 1 ≤ v.calculateMessagesVotingPower rm.2)
  have hqual_lookup : ∀ r : Nat, s.roundQualifies v r →
      ∃ m, lookup s.roundMessages r = some m ∧ p (r, m) = true := by
    intro r hq
    unfold MessageStore.roundQualifies at hq
    unfold lookupRound at hq
    cases hlo : lookup s.roundMessages r with
    | none =>
        rw [hlo] at hq
        simp [calculateMessagesVotingPower_nil] at hq
    | some m =>
        rw [hlo] at hq
        exact ⟨m, rfl, decide_eq_true hq⟩
  have hmem_qual : ∀ rm ∈ s.roundMessages, p rm = true → s.roundQualifies v rm.1 := by
    intro rm hrm hprm
    unfold MessageStore.roundQualifies lookupRound
    rw [mem_lookup_of_nodup _ _ _ hWF hrm]
    exact of_decide_eq_true hprm
  constructor
  · intro hfound
    rw [hmr] at hfound ⊢
    rcases mrFold_found_src p _ _ hfound with ⟨-, habs⟩ | ⟨rm, hrm, hprm, he⟩
    · exact absurd habs (by simp)
    · constructor
      · rw [he]; exact hmem_qual rm hrm hprm
      · intro r hq
        obtain ⟨m, hlo, hpm⟩ := hqual_lookup r hq
        exact mrFold_mem_le p _ (0, false) (r, m) (lookup_mem _ _ _ hlo) hpm
  · intro hnf
    rw [hmr] at hnf ⊢
    have hany : s.roundMessages.any p = false := by
      have hs := mrFold_snd p s.roundMessages (0, false)
      rw [hnf] at hs
      simpa using hs.symm
    constructor
    · rw [mrFold_not_found p _ _ hany]
    · intro r hq
      obtain ⟨m, hlo, hpm⟩ := hqual_lookup r hq
      exact (List.any_eq_false.mp hany (r, m) (lookup_mem _ _ _ hlo)) hpm

/-- Witness for C1: four equal-weight validators (`f = 1`, threshold 2);
round 1 holds round-change messages from `A` and `B`, so the search finds
round 1 and it is maximal among qualifying rounds. -/
theorem pbft_C1_maxRound_witness :
    (((mkStore ["A", "B", "C", "D"]).addMessage
        (mkMsg "A" MsgType.RoundChange 1)).addMessage
        (mkMsg "B" MsgType.RoundChange 1)).roundQualifies
          ⟨CreateEqualWeightValidatorsMap ["A", "B", "C", "D"]⟩
          ((((mkStore ["A", "B", "C", "D"]).addMessage
            (mkMsg "A" MsgType.RoundChange 1)).addMessage
            (mkMsg "B" MsgType.RoundChange 1)).maxRound
              ⟨CreateEqualWeightValidatorsMap ["A", "B", "C", "D"]⟩).1
    ∧ ∀ r : Nat,
        (((mkStore ["A", "B", "C", "D"]).addMessage
          (mkMsg "A" MsgType.RoundChange 1)).addMessage
          (mkMsg "B" MsgType.RoundChange 1)).roundQualifies
            ⟨CreateEqualWeightValidatorsMap ["A", "B", "C", "D"]⟩ r →
        r ≤ ((((mkStore ["A", "B", "C", "D"]).addMessage
          (mkMsg "A" MsgType.RoundChange 1)).addMessage
          (mkMsg "B" MsgType.RoundChange 1)).maxRound
            ⟨CreateEqualWeightValidatorsMap ["A", "B", "C", "D"]⟩).1 :=
  (pbft_C1_maxRound
    (((mkStore ["A", "B", "C", "D"]).addMessage
      (mkMsg "A" MsgType.RoundChange 1)).addMessage (mkMsg "B" MsgType.RoundChange 1))
    ⟨CreateEqualWeightValidatorsMap ["A", "B", "C", "D"]⟩ (by decide)).1 (by decide)
